import Mathlib

/-!
Verification of the account-abstraction calldata builder
(`src/createHandleOpsCalldata.ts`).

The development shallowly embeds the two cores of the program:

* the Ethereum-style ABI encoder used through `encodeAbiParameters` /
  `encodeFunctionData` (modelled from the spec, section 4.1, since the
  library implementation is not part of the repository source), and
* the v0.6 user-operation hashing pipeline `packUserOpV06` /
  `getUserOperationHashV06`, translated directly from the source.

Byte strings are `List Nat` with every entry intended to lie below 256;
the cryptographic hash primitive is an explicit function parameter
`keccak : List Nat → List Nat`, as the spec treats it as an external
collaborator supplying 32-byte digests.
-/

set_option autoImplicit false

/-- Big-endian encoding of `n` into exactly `w` bytes (the low `8*w` bits). -/
def beBytes : Nat → Nat → List Nat
  | 0, _ => []
  | w + 1, n => beBytes w (n / 256) ++ [n % 256]

theorem beBytes_length (w n : Nat) : (beBytes w n).length = w := by
  induction w generalizing n with
  | zero => rfl
  | succ w ih => simp [beBytes, ih]

theorem beBytes_zero (w : Nat) : beBytes w 0 = List.replicate w 0 := by
  induction w with
  | zero => rfl
  | succ w ih =>
      simp [beBytes, ih]
      rw [List.replicate_succ']

/-- A value below `256 ^ w2` occupies only the trailing `w2` bytes: the
leading `w1` bytes of its `(w1 + w2)`-byte big-endian form are zero padding. -/
theorem beBytes_split (w1 w2 n : Nat) (h : n < 256 ^ w2) :
    beBytes (w1 + w2) n = List.replicate w1 0 ++ beBytes w2 n := by
  induction w2 generalizing n with
  | zero =>
      have : n = 0 := by omega
      subst this
      simp [beBytes, beBytes_zero]
  | succ w2 ih =>
      have hdiv : n / 256 < 256 ^ w2 := by
        have h256 : 0 < (256 : Nat) := by omega
        rw [Nat.div_lt_iff_lt_mul h256]
        calc n < 256 ^ (w2 + 1) := h
        _ = 256 ^ w2 * 256 := by ring
      have hw : w1 + (w2 + 1) = (w1 + w2) + 1 := by omega
      rw [hw]
      show beBytes (w1 + w2) (n / 256) ++ [n % 256]
          = List.replicate w1 0 ++ beBytes (w2 + 1) n
      rw [ih (n / 256) hdiv]
      simp [beBytes]

theorem beBytes_inj (w n m : Nat) (hn : n < 256 ^ w) (hm : m < 256 ^ w)
    (h : beBytes w n = beBytes w m) : n = m := by
  induction w generalizing n m with
  | zero => omega
  | succ w ih =>
      have hlast := congrArg (fun l => l.getLast?) h
      have hinit :
          beBytes w (n / 256) = beBytes w (m / 256) := by
        have := congrArg (fun l => l.dropLast) h
        simpa [beBytes] using this
      have hmod : n % 256 = m % 256 := by
        simpa [beBytes] using hlast
      have hdn : n / 256 < 256 ^ w := by
        have h256 : 0 < (256 : Nat) := by omega
        rw [Nat.div_lt_iff_lt_mul h256]
        calc n < 256 ^ (w + 1) := hn
        _ = 256 ^ w * 256 := by ring
      have hdm : m / 256 < 256 ^ w := by
        have h256 : 0 < (256 : Nat) := by omega
        rw [Nat.div_lt_iff_lt_mul h256]
        calc m < 256 ^ (w + 1) := hm
        _ = 256 ^ w * 256 := by ring
      have hdiv := ih (n / 256) (m / 256) hdn hdm hinit
      omega

/-- Error taxonomy of the encoder, from the spec's error-handling design. -/
inductive EncodingError where
  | ValueOutOfRange
  | LayoutMismatch
deriving DecidableEq

/- Modelled from the spec: the fixed ABI type vocabulary
`{address, uint256, bytes32, bytes, tuple, tuple[]}` supported by the
encoder (`encodeAbiParameters` / `encodeFunctionData` are library code not
present under the repository source). `TypeList` is the layout of a tuple. -/
mutual
inductive AbiType where
  | address
  | uint256
  | bytes32
  | bytes
  | tuple (fields : TypeList)
  | tupleArray (elem : TypeList)
inductive TypeList where
  | nil
  | cons (t : AbiType) (rest : TypeList)
end

/- Modelled from the spec: the value tree fed to the encoder. A `word` is a
`bytes32` scalar, `tuple` carries its fields in declaration order, and
`array` carries the field lists of its tuple elements. -/
mutual
inductive AbiValue where
  | addr (a : Nat)
  | uint (n : Nat)
  | word (b : List Nat)
  | bytes (b : List Nat)
  | tuple (fields : FieldList)
  | array (items : ItemList)
inductive FieldList where
  | nil
  | cons (f : AbiValue) (rest : FieldList)
inductive ItemList where
  | nil
  | cons (item : FieldList) (rest : ItemList)
end

def TypeList.length : TypeList → Nat
  | .nil => 0
  | .cons _ rest => rest.length + 1

def FieldList.length : FieldList → Nat
  | .nil => 0
  | .cons _ rest => rest.length + 1

def ItemList.length : ItemList → Nat
  | .nil => 0
  | .cons _ rest => rest.length + 1

/- Modelled from the spec: a type is dynamic when it is `bytes`, an array of
tuples, or a tuple with some dynamic field; dynamic fields are offset-encoded
in the head region. -/
mutual
def isDynamicType : AbiType → Bool
  | .address => false
  | .uint256 => false
  | .bytes32 => false
  | .bytes => true
  | .tuple fields => anyDynamicType fields
  | .tupleArray _ => true
def anyDynamicType : TypeList → Bool
  | .nil => false
  | .cons t rest => isDynamicType t || anyDynamicType rest
end

/-- Modelled from the spec: `encode_static(value, type)` produces one fixed
32-byte word. Addresses are left-padded to 32 bytes, `uint256` values are
32-byte big-endian; a `uint256` above `2 ^ 256 - 1` or an address wider than
20 bytes fails with `ValueOutOfRange`; any value/type mismatch (including a
`bytes32` word of the wrong width, a dynamic value, or a dynamic type) fails
with `LayoutMismatch`. -/
def encode_static (v : AbiValue) (t : AbiType) : Except EncodingError (List Nat) :=
  match v, t with
  | .addr a, .address =>
      if a < 2 ^ 160 then .ok (beBytes 32 a) else .error .ValueOutOfRange
  | .uint n, .uint256 =>
      if n < 2 ^ 256 then .ok (beBytes 32 n) else .error .ValueOutOfRange
  | .word b, .bytes32 =>
      if b.length = 32 then .ok b else .error .LayoutMismatch
  | _, _ => .error .LayoutMismatch

/-- Modelled from the spec: `encode_dynamic_bytes(data)` is a 32-byte
big-endian length word followed by the data right-padded with zero bytes to
the next multiple of 32. -/
def encode_dynamic_bytes (data : List Nat) : List Nat :=
  beBytes 32 data.length ++ data ++ List.replicate ((32 - data.length % 32) % 32) 0

/- Modelled from the spec: the head/tail encoder. `encode_fields` runs the
two-pass tuple discipline with the head size precomputed (`headSize`) and the
running tail length (`tailLen`); it returns the head and tail regions.
`encode_value_tail` encodes one dynamic value's tail payload.
`encode_array_elems` emits per-item offset words (relative to the start of the
array's element region) and the item encodings. -/
mutual
def encode_value_tail (v : AbiValue) (t : AbiType) : Except EncodingError (List Nat) :=
  match v, t with
  | .bytes b, .bytes => .ok (encode_dynamic_bytes b)
  | .tuple fields, .tuple layout =>
      match encode_fields (32 * layout.length) fields layout 0 with
      | .error e => .error e
      | .ok (h, tail) => .ok (h ++ tail)
  | .array items, .tupleArray elem =>
      match encode_array_elems items elem (32 * items.length) 0 with
      | .error e => .error e
      | .ok (offs, encs) => .ok (beBytes 32 items.length ++ offs ++ encs)
  | _, _ => .error .LayoutMismatch

def encode_fields (headSize : Nat) (fields : FieldList) (layout : TypeList)
    (tailLen : Nat) : Except EncodingError (List Nat × List Nat) :=
  match fields, layout with
  | .nil, .nil => .ok ([], [])
  | .cons f fs, .cons t ts =>
      if isDynamicType t then
        match encode_value_tail f t with
        | .error e => .error e
        | .ok tail =>
            match encode_fields headSize fs ts (tailLen + tail.length) with
            | .error e => .error e
            | .ok (h, rest) =>
                .ok (beBytes 32 (headSize + tailLen) ++ h, tail ++ rest)
      else
        match encode_static f t with
        | .error e => .error e
        | .ok w =>
            match encode_fields headSize fs ts tailLen with
            | .error e => .error e
            | .ok (h, rest) => .ok (w ++ h, rest)
  | _, _ => .error .LayoutMismatch

def encode_array_elems (items : ItemList) (elem : TypeList) (offBase : Nat)
    (tailLen : Nat) : Except EncodingError (List Nat × List Nat) :=
  match items with
  | .nil => .ok ([], [])
  | .cons item rest =>
      match encode_fields (32 * elem.length) item elem 0 with
      | .error e => .error e
      | .ok (h, tail) =>
          match encode_array_elems rest elem offBase (tailLen + (h ++ tail).length) with
          | .error e => .error e
          | .ok (offs, encs) =>
              .ok (beBytes 32 (offBase + tailLen) ++ offs, (h ++ tail) ++ encs)
end

/-- Modelled from the spec: `encode_tuple(fields, layout)` concatenates the
head and tail regions produced by the two-pass discipline. -/
def encode_tuple (fields : FieldList) (layout : TypeList) : Except EncodingError (List Nat) :=
  match encode_fields (32 * layout.length) fields layout 0 with
  | .error e => .error e
  | .ok (h, tail) => .ok (h ++ tail)

/-- Modelled from the spec: `encode_array_of_tuples(items, tuple_layout)` is a
32-byte element-count word, per-item offset words, then the item encodings. -/
def encode_array_of_tuples (items : ItemList) (layout : TypeList) :
    Except EncodingError (List Nat) :=
  match encode_array_elems items layout (32 * items.length) 0 with
  | .error e => .error e
  | .ok (offs, encs) => .ok (beBytes 32 items.length ++ offs ++ encs)

/-- Modelled from the spec: `encode_function_call(selector_bytes, ordered_args)`
prefixes the top-level head/tail encoding of the argument list, treated as an
implicit tuple, with the 4-byte selector. -/
def encode_function_call (selector : List Nat) (args : FieldList)
    (layout : TypeList) : Except EncodingError (List Nat) :=
  match encode_tuple args layout with
  | .error e => .error e
  | .ok body => .ok (selector ++ body)

/-- The v0.6 `UserOperation` record from the source. Addresses and unsigned
256-bit integers are `Nat`, byte strings are `List Nat`. -/
structure UserOperation where
  sender : Nat
  nonce : Nat
  initCode : List Nat
  callData : List Nat
  callGasLimit : Nat
  verificationGasLimit : Nat
  preVerificationGas : Nat
  maxFeePerGas : Nat
  maxPriorityFeePerGas : Nat
  paymasterAndData : List Nat
  signature : List Nat

/-- Well-formedness of a `UserOperation`, mirroring the source's types: the
sender is a 20-byte address and every integer field fits in 256 bits. -/
def UserOperation.WF (u : UserOperation) : Prop :=
  u.sender < 2 ^ 160 ∧ u.nonce < 2 ^ 256 ∧ u.callGasLimit < 2 ^ 256 ∧
  u.verificationGasLimit < 2 ^ 256 ∧ u.preVerificationGas < 2 ^ 256 ∧
  u.maxFeePerGas < 2 ^ 256 ∧ u.maxPriorityFeePerGas < 2 ^ 256

instance (u : UserOperation) : Decidable u.WF := by
  unfold UserOperation.WF
  infer_instance

/-- Parameter layout of the packed user operation, as listed in the source's
`packUserOpV06` call to `encodeAbiParameters`. -/
def packUserOpTypes : TypeList :=
  .cons .address (.cons .uint256 (.cons .bytes32 (.cons .bytes32 (.cons .uint256
    (.cons .uint256 (.cons .uint256 (.cons .uint256 (.cons .uint256
      (.cons .bytes32 .nil)))))))))

/-- Translation of the source's `packUserOpV06`: ABI-encode the static tuple
whose dynamic fields are replaced by their keccak256 hashes and whose
`signature` is omitted. -/
def packUserOpV06 (keccak : List Nat → List Nat) (u : UserOperation) :
    Except EncodingError (List Nat) :=
  encode_tuple
    (.cons (.addr u.sender) (.cons (.uint u.nonce)
      (.cons (.word (keccak u.initCode)) (.cons (.word (keccak u.callData))
        (.cons (.uint u.callGasLimit) (.cons (.uint u.verificationGasLimit)
          (.cons (.uint u.preVerificationGas) (.cons (.uint u.maxFeePerGas)
            (.cons (.uint u.maxPriorityFeePerGas)
              (.cons (.word (keccak u.paymasterAndData)) .nil))))))))))
    packUserOpTypes

/-- Translation of the source's `getUserOperationHashV06`: hash the packed
operation, ABI-encode `(bytes32, address, uint256)` over that hash, the entry
point and the chain id, and hash the result. The chain id is a parameter
(modelled from the spec: the source reads `kakarotChain.id` from
`./constants`, which is not part of the repository source; the spec treats the
chain id as an externally supplied fixed configuration value). -/
def getUserOperationHashV06 (keccak : List Nat → List Nat) (u : UserOperation)
    (entryPoint chainId : Nat) : Except EncodingError (List Nat) :=
  match packUserOpV06 keccak u with
  | .error e => .error e
  | .ok packed =>
      match encode_tuple
          (.cons (.word (keccak packed))
            (.cons (.addr entryPoint) (.cons (.uint chainId) .nil)))
          (.cons .bytes32 (.cons .address (.cons .uint256 .nil))) with
      | .error e => .error e
      | .ok encoded => .ok (keccak encoded)

/-- Tuple layout of one `UserOperation` in the source's `handleOps` ABI:
eleven fields, with `initCode`, `callData`, `paymasterAndData` and
`signature` as dynamic `bytes`. -/
def userOpAbiTypes : TypeList :=
  .cons .address (.cons .uint256 (.cons .bytes (.cons .bytes (.cons .uint256
    (.cons .uint256 (.cons .uint256 (.cons .uint256 (.cons .uint256
      (.cons .bytes (.cons .bytes .nil))))))))))

/-- Argument layout of `handleOps(UserOperation[] ops, address beneficiary)`. -/
def handleOpsArgTypes : TypeList :=
  .cons (.tupleArray userOpAbiTypes) (.cons .address .nil)

/-- One `UserOperation` as an ABI tuple element, fields in declaration order. -/
def userOpToFields (u : UserOperation) : FieldList :=
  .cons (.addr u.sender) (.cons (.uint u.nonce)
    (.cons (.bytes u.initCode) (.cons (.bytes u.callData)
      (.cons (.uint u.callGasLimit) (.cons (.uint u.verificationGasLimit)
        (.cons (.uint u.preVerificationGas) (.cons (.uint u.maxFeePerGas)
          (.cons (.uint u.maxPriorityFeePerGas)
            (.cons (.bytes u.paymasterAndData)
              (.cons (.bytes u.signature) .nil))))))))))

def opsToItems : List UserOperation → ItemList
  | [] => .nil
  | u :: us => .cons (userOpToFields u) (opsToItems us)

/-- Canonical signature string of the `handleOps` function described by the
source's `abi` constant, as ASCII bytes. -/
def handleOpsSignatureBytes : List Nat :=
  (String.toList
    "handleOps((address,uint256,bytes,bytes,uint256,uint256,uint256,uint256,uint256,bytes,bytes)[],address)").map
    Char.toNat

/-- Translation of the source's `encodeFunctionData` call producing the
`handleOps` calldata: the 4-byte selector (first four bytes of the hash of the
canonical signature) followed by the encoded `(ops, beneficiary)` arguments. -/
def createHandleOpsCalldata (keccak : List Nat → List Nat)
    (ops : List UserOperation) (beneficiary : Nat) :
    Except EncodingError (List Nat) :=
  encode_function_call ((keccak handleOpsSignatureBytes).take 4)
    (.cons (.array (opsToItems ops)) (.cons (.addr beneficiary) .nil))
    handleOpsArgTypes

/-- Hash model used in concrete instantiations: fixed all-zero 32-byte digest. -/
def keccakConst : List Nat → List Nat := fun _ => List.replicate 32 0

/-- Injective packing of a byte string into one natural number. -/
def encodeListNat : List Nat → Nat
  | [] => 0
  | x :: xs => Nat.pair x (encodeListNat xs) + 1

theorem encodeListNat_inj : Function.Injective encodeListNat := by
  intro x y h
  induction x generalizing y with
  | nil =>
      cases y with
      | nil => rfl
      | cons b bs => simp [encodeListNat] at h
  | cons a as ih =>
      cases y with
      | nil => simp [encodeListNat] at h
      | cons b bs =>
          simp only [encodeListNat, Nat.add_right_cancel_iff] at h
          have := Nat.pair_eq_pair.mp h
          rw [this.1, ih this.2]

/-- Hash model used in concrete instantiations: a collision-free 32-entry
digest (the whole input packed injectively into the first entry). -/
def keccakInj : List Nat → List Nat :=
  fun b => encodeListNat b :: List.replicate 31 0

theorem keccakInj_inj : Function.Injective keccakInj := by
  intro x y h
  exact encodeListNat_inj (by simpa [keccakInj] using h)

theorem keccakInj_length (b : List Nat) : (keccakInj b).length = 32 := by
  simp [keccakInj]

theorem two_pow_160_eq : (2 : Nat) ^ 160 = 256 ^ 20 := by norm_num

theorem two_pow_256_eq : (2 : Nat) ^ 256 = 256 ^ 32 := by norm_num

theorem encode_static_ok_length (v : AbiValue) (t : AbiType) (w : List Nat)
    (h : encode_static v t = .ok w) : w.length = 32 := by
  cases v <;> cases t <;> simp only [encode_static.eq_def] at h <;>
    first
      | (split at h
         · simp only [Except.ok.injEq] at h
           subst h
           first
             | assumption
             | exact beBytes_length 32 _
         · exact Except.noConfusion h)
      | exact Except.noConfusion h

theorem encode_dynamic_bytes_length (data : List Nat) :
    (encode_dynamic_bytes data).length = 32 + 32 * ((data.length + 31) / 32) := by
  simp [encode_dynamic_bytes, beBytes_length]
  omega

theorem packUserOpV06_eq (keccak : List Nat → List Nat) (u : UserOperation)
    (hk : ∀ b, (keccak b).length = 32) (hwf : u.WF) :
    packUserOpV06 keccak u = .ok
      (beBytes 32 u.sender ++ beBytes 32 u.nonce ++ keccak u.initCode ++
        keccak u.callData ++ beBytes 32 u.callGasLimit ++
        beBytes 32 u.verificationGasLimit ++ beBytes 32 u.preVerificationGas ++
        beBytes 32 u.maxFeePerGas ++ beBytes 32 u.maxPriorityFeePerGas ++
        keccak u.paymasterAndData) := by
  obtain ⟨h1, h2, h3, h4, h5, h6, h7⟩ := hwf
  norm_num at h1 h2 h3 h4 h5 h6 h7
  simp [packUserOpV06, packUserOpTypes, encode_tuple, encode_fields,
    isDynamicType, encode_static, TypeList.length, hk, h1, h2, h3, h4, h5, h6, h7]

theorem getUserOperationHashV06_of_packed (keccak : List Nat → List Nat)
    (u : UserOperation) (entryPoint chainId : Nat) (packed : List Nat)
    (hk : ∀ b, (keccak b).length = 32)
    (hp : packUserOpV06 keccak u = .ok packed)
    (hep : entryPoint < 2 ^ 160) (hc : chainId < 2 ^ 256) :
    getUserOperationHashV06 keccak u entryPoint chainId =
      .ok (keccak (keccak packed ++ beBytes 32 entryPoint ++ beBytes 32 chainId)) := by
  norm_num at hep hc
  simp [getUserOperationHashV06, hp, encode_tuple, encode_fields, TypeList.length,
    isDynamicType, encode_static, hk, hep, hc]

theorem beBytes_32_address (a : Nat) (h : a < 2 ^ 160) :
    beBytes 32 a = List.replicate 12 0 ++ beBytes 20 a := by
  have h2 : a < 256 ^ 20 := by rw [← two_pow_160_eq]; exact h
  simpa using beBytes_split 12 20 a h2

/-- Sample operation with all fields zero or empty, used to instantiate the
universally quantified theorems. -/
def sampleOp : UserOperation := ⟨0, 0, [], [], 0, 0, 0, 0, 0, [], []⟩

/-- C2: for every v0.6 user operation, `packUserOpV06` returns exactly 320
bytes: ten static 32-byte words in declaration order — the sender left-padded
to 32 bytes, the nonce big-endian, the hashes of `initCode` and `callData`,
the five gas and fee integers big-endian, and the hash of
`paymasterAndData` — with no offset words and without the signature. -/
theorem packUserOpV06_ten_words (keccak : List Nat → List Nat)
    (u : UserOperation) (hk : ∀ b, (keccak b).length = 32) (hwf : u.WF) :
    ∃ packed, packUserOpV06 keccak u = .ok packed ∧
      packed = (List.replicate 12 0 ++ beBytes 20 u.sender) ++
        beBytes 32 u.nonce ++ keccak u.initCode ++ keccak u.callData ++
        beBytes 32 u.callGasLimit ++ beBytes 32 u.verificationGasLimit ++
        beBytes 32 u.preVerificationGas ++ beBytes 32 u.maxFeePerGas ++
        beBytes 32 u.maxPriorityFeePerGas ++ keccak u.paymasterAndData ∧
      packed.length = 320 := by
  refine ⟨_, packUserOpV06_eq keccak u hk hwf, ?_, ?_⟩
  · rw [beBytes_32_address u.sender hwf.1]
  · simp [List.length_append, beBytes_length, hk]

/-- Witness for C2 at an all-zero operation and the constant hash model. -/
theorem packUserOpV06_ten_words_witness :
    ∃ packed, packUserOpV06 keccakConst sampleOp = .ok packed ∧
      packed = (List.replicate 12 0 ++ beBytes 20 sampleOp.sender) ++
        beBytes 32 sampleOp.nonce ++ keccakConst sampleOp.initCode ++
        keccakConst sampleOp.callData ++ beBytes 32 sampleOp.callGasLimit ++
        beBytes 32 sampleOp.verificationGasLimit ++
        beBytes 32 sampleOp.preVerificationGas ++
        beBytes 32 sampleOp.maxFeePerGas ++
        beBytes 32 sampleOp.maxPriorityFeePerGas ++
        keccakConst sampleOp.paymasterAndData ∧
      packed.length = 320 :=
  packUserOpV06_ten_words keccakConst sampleOp (fun _ => rfl) (by decide)

/-- C1: `getUserOperationHashV06` hashes the 96-byte concatenation of the
packed-tuple hash, the entry-point address left-padded to 32 bytes and the
chain id as a 32-byte big-endian integer. -/
theorem getUserOperationHashV06_two_stage (keccak : List Nat → List Nat)
    (u : UserOperation) (entryPoint chainId : Nat)
    (hk : ∀ b, (keccak b).length = 32) (hwf : u.WF)
    (hep : entryPoint < 2 ^ 160) (hc : chainId < 2 ^ 256) :
    ∃ packed, packUserOpV06 keccak u = .ok packed ∧
      getUserOperationHashV06 keccak u entryPoint chainId =
        .ok (keccak (keccak packed ++
          (List.replicate 12 0 ++ beBytes 20 entryPoint) ++
          beBytes 32 chainId)) ∧
      (keccak packed ++ (List.replicate 12 0 ++ beBytes 20 entryPoint) ++
        beBytes 32 chainId).length = 96 := by
  refine ⟨_, packUserOpV06_eq keccak u hk hwf, ?_, ?_⟩
  · rw [← beBytes_32_address entryPoint hep]
    exact getUserOperationHashV06_of_packed keccak u entryPoint chainId _ hk
      (packUserOpV06_eq keccak u hk hwf) hep hc
  · simp [List.length_append, beBytes_length, hk]

/-- Witness for C1 at an all-zero operation, entry point 3 and chain id 7. -/
theorem getUserOperationHashV06_two_stage_witness :
    ∃ packed, packUserOpV06 keccakConst sampleOp = .ok packed ∧
      getUserOperationHashV06 keccakConst sampleOp 3 7 =
        .ok (keccakConst (keccakConst packed ++
          (List.replicate 12 0 ++ beBytes 20 3) ++ beBytes 32 7)) ∧
      (keccakConst packed ++ (List.replicate 12 0 ++ beBytes 20 3) ++
        beBytes 32 7).length = 96 :=
  getUserOperationHashV06_two_stage keccakConst sampleOp 3 7 (fun _ => rfl)
    (by decide) (by decide) (by decide)

/-- Sample operation equal to `sampleOp` except for its signature. -/
def sampleOpSig : UserOperation := ⟨0, 0, [], [], 0, 0, 0, 0, 0, [], [1]⟩

/-- C3: the signature field has no influence on the signing digest. -/
theorem getUserOperationHashV06_signature_independent
    (keccak : List Nat → List Nat) (u1 u2 : UserOperation)
    (entryPoint chainId : Nat)
    (hs : u1.sender = u2.sender) (hn : u1.nonce = u2.nonce)
    (hi : u1.initCode = u2.initCode) (hcd : u1.callData = u2.callData)
    (hg1 : u1.callGasLimit = u2.callGasLimit)
    (hg2 : u1.verificationGasLimit = u2.verificationGasLimit)
    (hg3 : u1.preVerificationGas = u2.preVerificationGas)
    (hg4 : u1.maxFeePerGas = u2.maxFeePerGas)
    (hg5 : u1.maxPriorityFeePerGas = u2.maxPriorityFeePerGas)
    (hpd : u1.paymasterAndData = u2.paymasterAndData) :
    getUserOperationHashV06 keccak u1 entryPoint chainId =
      getUserOperationHashV06 keccak u2 entryPoint chainId := by
  have hpack : packUserOpV06 keccak u1 = packUserOpV06 keccak u2 := by
    unfold packUserOpV06
    rw [hs, hn, hi, hcd, hg1, hg2, hg3, hg4, hg5, hpd]
  unfold getUserOperationHashV06
  rw [hpack]

/-- Witness for C3: two operations differing only in the signature. -/
theorem getUserOperationHashV06_signature_independent_witness :
    getUserOperationHashV06 keccakConst sampleOp 3 7 =
      getUserOperationHashV06 keccakConst sampleOpSig 3 7 :=
  getUserOperationHashV06_signature_independent keccakConst sampleOp sampleOpSig
    3 7 rfl rfl rfl rfl rfl rfl rfl rfl rfl rfl

/-- Sample operation with a different `initCode` byte string. -/
def sampleOpInit : UserOperation := ⟨0, 0, [1, 2], [], 0, 0, 0, 0, 0, [], []⟩

/-- C10: the digest depends on each dynamic field only through its hash. -/
theorem getUserOperationHashV06_dynamic_via_hash
    (keccak : List Nat → List Nat) (u1 u2 : UserOperation)
    (entryPoint chainId : Nat)
    (hs : u1.sender = u2.sender) (hn : u1.nonce = u2.nonce)
    (hg1 : u1.callGasLimit = u2.callGasLimit)
    (hg2 : u1.verificationGasLimit = u2.verificationGasLimit)
    (hg3 : u1.preVerificationGas = u2.preVerificationGas)
    (hg4 : u1.maxFeePerGas = u2.maxFeePerGas)
    (hg5 : u1.maxPriorityFeePerGas = u2.maxPriorityFeePerGas)
    (hi : keccak u1.initCode = keccak u2.initCode)
    (hcd : keccak u1.callData = keccak u2.callData)
    (hpd : keccak u1.paymasterAndData = keccak u2.paymasterAndData) :
    getUserOperationHashV06 keccak u1 entryPoint chainId =
      getUserOperationHashV06 keccak u2 entryPoint chainId := by
  have hpack : packUserOpV06 keccak u1 = packUserOpV06 keccak u2 := by
    unfold packUserOpV06
    rw [hs, hn, hi, hcd, hg1, hg2, hg3, hg4, hg5, hpd]
  unfold getUserOperationHashV06
  rw [hpack]

/-- Witness for C10: `sampleOp` and `sampleOpInit` have different raw
`initCode` bytes but equal field hashes under the constant hash model. -/
theorem getUserOperationHashV06_dynamic_via_hash_witness :
    getUserOperationHashV06 keccakConst sampleOp 3 7 =
      getUserOperationHashV06 keccakConst sampleOpInit 3 7 :=
  getUserOperationHashV06_dynamic_via_hash keccakConst sampleOp sampleOpInit
    3 7 rfl rfl rfl rfl rfl rfl rfl rfl rfl rfl

/-- C4: with a collision-free hash primitive, two distinct entry-point or
chain-id contexts never produce the same signing digest for a fixed
operation. -/
theorem getUserOperationHashV06_domain_separation
    (keccak : List Nat → List Nat) (u : UserOperation)
    (ep ep' chain chain' : Nat)
    (hinj : Function.Injective keccak)
    (hk : ∀ b, (keccak b).length = 32) (hwf : u.WF)
    (hep : ep < 2 ^ 160) (hep' : ep' < 2 ^ 160)
    (hc : chain < 2 ^ 256) (hc' : chain' < 2 ^ 256)
    (hne : ep ≠ ep' ∨ chain ≠ chain') :
    getUserOperationHashV06 keccak u ep chain ≠
      getUserOperationHashV06 keccak u ep' chain' := by
  intro heq
  have hp := packUserOpV06_eq keccak u hk hwf
  have h1 := getUserOperationHashV06_of_packed keccak u ep chain _ hk hp hep hc
  have h2 := getUserOperationHashV06_of_packed keccak u ep' chain' _ hk hp hep' hc'
  rw [h1, h2] at heq
  have hXY := hinj (Except.ok.inj heq)
  have hsplit := List.append_inj hXY (by simp [beBytes_length, hk])
  have hbound : ∀ x : Nat, x < 2 ^ 256 → x < 256 ^ 32 := by
    intro x hx
    rwa [← two_pow_256_eq]
  have hepep : ep = ep' := by
    have he : beBytes 32 ep = beBytes 32 ep' :=
      List.append_cancel_left hsplit.1
    exact beBytes_inj 32 ep ep'
      (hbound ep (lt_trans hep (by norm_num)))
      (hbound ep' (lt_trans hep' (by norm_num))) he
  have hchch : chain = chain' :=
    beBytes_inj 32 chain chain' (hbound chain hc) (hbound chain' hc') hsplit.2
  cases hne with
  | inl h => exact h hepep
  | inr h => exact h hchch

/-- Witness for C4: under the injective hash model, entry points 0 and 1
yield different digests for the all-zero operation on chain 7. -/
theorem getUserOperationHashV06_domain_separation_witness :
    getUserOperationHashV06 keccakInj sampleOp 0 7 ≠
      getUserOperationHashV06 keccakInj sampleOp 1 7 :=
  getUserOperationHashV06_domain_separation keccakInj sampleOp 0 1 7 7
    keccakInj_inj keccakInj_length (by decide) (by decide) (by decide)
    (by decide) (by decide) (Or.inl (by decide))

/-- C6: `encode_static` returns exactly one 32-byte word for every supported
scalar — an address left-padded with zero bytes to 32 bytes, a `uint256` as a
32-byte big-endian unsigned integer — and it fails with `ValueOutOfRange`
exactly when a `uint256` input exceeds `2 ^ 256 - 1` or an address input is
wider than 20 bytes. -/
theorem encode_static_scalar_spec :
    (∀ a : Nat, a < 2 ^ 160 →
      encode_static (.addr a) .address =
        .ok (List.replicate 12 0 ++ beBytes 20 a) ∧
      (List.replicate 12 0 ++ beBytes 20 a).length = 32) ∧
    (∀ n : Nat, n < 2 ^ 256 →
      encode_static (.uint n) .uint256 = .ok (beBytes 32 n) ∧
      (beBytes 32 n).length = 32) ∧
    (∀ (v : AbiValue) (t : AbiType),
      encode_static v t = .error .ValueOutOfRange ↔
        ((∃ n, v = .uint n ∧ t = .uint256 ∧ 2 ^ 256 ≤ n) ∨
         (∃ a, v = .addr a ∧ t = .address ∧ 2 ^ 160 ≤ a))) := by
  refine ⟨?_, ?_, ?_⟩
  · intro a ha
    constructor
    · simp only [encode_static.eq_def]
      rw [if_pos ha, beBytes_32_address a ha]
    · simp [beBytes_length]
  · intro n hn
    constructor
    · simp only [encode_static.eq_def]
      rw [if_pos hn]
    · exact beBytes_length 32 n
  · intro v t
    cases v <;> cases t <;> simp only [encode_static.eq_def] <;>
      first
        | (constructor
           · intro h
             split at h
             · exact Except.noConfusion h
             · rename_i hcond
               simp
               omega
           · intro h
             rcases h with ⟨x, hx, ht, hge⟩ | ⟨x, hx, ht, hge⟩ <;>
               first
                 | exact AbiType.noConfusion ht
                 | (cases hx
                    rw [if_neg (by omega)])
          )
        | (simp
           try (split <;> simp))

/-- Witness for C6: in-range address 5 and integer 9, and the out-of-range
integer `2 ^ 256` triggering `ValueOutOfRange`. -/
theorem encode_static_scalar_spec_witness :
    (encode_static (.addr 5) .address =
        .ok (List.replicate 12 0 ++ beBytes 20 5) ∧
      (List.replicate 12 0 ++ beBytes 20 5).length = 32) ∧
    (encode_static (.uint 9) .uint256 = .ok (beBytes 32 9) ∧
      (beBytes 32 9).length = 32) ∧
    (encode_static (.uint (2 ^ 256)) .uint256 = .error .ValueOutOfRange ↔
      ((∃ n, AbiValue.uint (2 ^ 256) = .uint n ∧ AbiType.uint256 = .uint256 ∧
          2 ^ 256 ≤ n) ∨
       (∃ a, AbiValue.uint (2 ^ 256) = .addr a ∧ AbiType.uint256 = .address ∧
          2 ^ 160 ≤ a))) :=
  ⟨encode_static_scalar_spec.1 5 (by decide),
   encode_static_scalar_spec.2.1 9 (by decide),
   encode_static_scalar_spec.2.2 (.uint (2 ^ 256)) .uint256⟩

/-- C7: the dynamic-bytes encoding is a 32-byte big-endian length word
followed by the data right-padded with zeros to the next multiple of 32
bytes, with total length `32 + 32 * ceil(len / 32)`; the empty string
produces only the 32-byte zero length word. -/
theorem encode_dynamic_bytes_layout :
    (∀ data : List Nat,
      encode_dynamic_bytes data =
        beBytes 32 data.length ++ data ++
          List.replicate ((32 - data.length % 32) % 32) 0 ∧
      (encode_dynamic_bytes data).length =
        32 + 32 * ((data.length + 31) / 32)) ∧
    encode_dynamic_bytes [] = List.replicate 32 0 := by
  refine ⟨fun data => ⟨rfl, encode_dynamic_bytes_length data⟩, ?_⟩
  simp [encode_dynamic_bytes, beBytes_zero]

/-- C8: encoding an empty array of tuples yields exactly the single 32-byte
zero element-count word, for every tuple layout. -/
theorem encode_array_of_tuples_empty (layout : TypeList) :
    encode_array_of_tuples .nil layout = .ok (List.replicate 32 0) := by
  simp [encode_array_of_tuples, encode_array_elems, ItemList.length, beBytes_zero]

theorem encode_fields_ok_head_length :
    ∀ (fields : FieldList) (layout : TypeList) (hs tl : Nat)
      (hd tail : List Nat),
      encode_fields hs fields layout tl = .ok (hd, tail) →
      hd.length = 32 * fields.length
  | .nil, layout, hs, tl, hd, tail, h => by
      cases layout with
      | nil =>
          simp only [encode_fields, Except.ok.injEq, Prod.mk.injEq] at h
          obtain ⟨h1, h2⟩ := h
          subst h1
          simp [FieldList.length]
      | cons t ts =>
          simp only [encode_fields] at h
          exact Except.noConfusion h
  | .cons f fs, layout, hs, tl, hd, tail, h => by
      cases layout with
      | nil =>
          simp only [encode_fields] at h
          exact Except.noConfusion h
      | cons t ts =>
          simp only [encode_fields] at h
          split at h
          · split at h
            · exact Except.noConfusion h
            · split at h
              · exact Except.noConfusion h
              · simp only [Except.ok.injEq, Prod.mk.injEq] at h
                obtain ⟨h1, hh2⟩ := h
                subst h1
                have ihl := encode_fields_ok_head_length fs ts hs _ _ _
                  (by assumption)
                simp [List.length_append, beBytes_length, FieldList.length, ihl]
                omega
          · split at h
            · exact Except.noConfusion h
            · split at h
              · exact Except.noConfusion h
              · simp only [Except.ok.injEq, Prod.mk.injEq] at h
                obtain ⟨h1, hh2⟩ := h
                subst h1
                have ihl := encode_fields_ok_head_length fs ts hs _ _ _
                  (by assumption)
                have hwl := encode_static_ok_length f t _ (by assumption)
                simp [List.length_append, FieldList.length, ihl, hwl]
                omega

/-- C9: the encoded `handleOps` call is the 4-byte selector — the first four
bytes of the hash of the canonical function signature string — followed by
the head/tail encoding of the argument list as an implicit tuple whose head
region has one 32-byte word per top-level argument. -/
theorem createHandleOpsCalldata_selector_head (keccak : List Nat → List Nat)
    (ops : List UserOperation) (beneficiary : Nat) (payload : List Nat)
    (hk : ∀ b, (keccak b).length = 32)
    (hok : createHandleOpsCalldata keccak ops beneficiary = .ok payload) :
    ∃ hd tail,
      payload = (keccak handleOpsSignatureBytes).take 4 ++ hd ++ tail ∧
      ((keccak handleOpsSignatureBytes).take 4).length = 4 ∧
      hd.length = 32 * 2 ∧
      encode_tuple
        (.cons (.array (opsToItems ops)) (.cons (.addr beneficiary) .nil))
        handleOpsArgTypes = .ok (hd ++ tail) := by
  unfold createHandleOpsCalldata encode_function_call at hok
  split at hok
  · exact Except.noConfusion hok
  · rename_i body hbody
    simp only [Except.ok.injEq] at hok
    subst hok
    unfold encode_tuple at hbody
    split at hbody
    · exact Except.noConfusion hbody
    · rename_i hd0 tl0 hfields
      simp only [Except.ok.injEq] at hbody
      subst hbody
      refine ⟨hd0, tl0, by simp, ?_, ?_, ?_⟩
      · simp [List.length_take, hk]
      · exact encode_fields_ok_head_length _ _ _ _ _ _ hfields
      · unfold encode_tuple
        rw [hfields]

set_option maxRecDepth 4000 in
/-- Witness for C9: the `handleOps` calldata for zero operations and
beneficiary 0 under the constant hash model. -/
theorem createHandleOpsCalldata_selector_head_witness :
    ∃ hd tail,
      List.replicate 4 0 ++ (List.replicate 31 0 ++ [64]) ++
          List.replicate 32 0 ++ List.replicate 32 0 =
        (keccakConst handleOpsSignatureBytes).take 4 ++ hd ++ tail ∧
      ((keccakConst handleOpsSignatureBytes).take 4).length = 4 ∧
      hd.length = 32 * 2 ∧
      encode_tuple
        (.cons (.array (opsToItems [])) (.cons (.addr 0) .nil))
        handleOpsArgTypes = .ok (hd ++ tail) :=
  createHandleOpsCalldata_selector_head keccakConst [] 0
    (List.replicate 4 0 ++ (List.replicate 31 0 ++ [64]) ++
      List.replicate 32 0 ++ List.replicate 32 0)
    (fun _ => rfl) rfl

/-- Operation with one-byte `initCode` and `callData`, empty
`paymasterAndData` and a 65-byte signature, used for the C5 length claim. -/
def c5op : UserOperation :=
  ⟨0, 0, [0], [0], 0, 0, 0, 0, 0, [], List.replicate 65 0⟩

set_option maxRecDepth 8000 in
/-- C5 fails as stated: for one operation with non-empty `initCode` and
`callData` and a 65-byte signature, the payload is 772 bytes, while the
claimed sum `4 + 32*2 + 32 + 32*11 + tails` is 740 — it omits the 32-byte
per-element offset word of the dynamic tuple array. -/
theorem createHandleOpsCalldata_length_cex :
    (createHandleOpsCalldata keccakConst [c5op] 0).map List.length =
      .ok 772 ∧
    4 + 32 * 2 + 32 + 32 * 11 +
      ((32 + 32 * ((c5op.initCode.length + 31) / 32)) +
       (32 + 32 * ((c5op.callData.length + 31) / 32)) +
       (32 + 32 * ((c5op.paymasterAndData.length + 31) / 32)) +
       (32 + 32 * ((c5op.signature.length + 31) / 32))) = 740 ∧
    (772 : Nat) ≠ 740 := by
  refine ⟨rfl, rfl, by omega⟩

/-- C5 (amended): the payload length for one operation adds one 32-byte
offset word for the single dynamic tuple element, as the spec's array
encoding prescribes, on top of the claimed selector, head, count, tuple-head
and tail sizes. -/
theorem createHandleOpsCalldata_one_op_length (keccak : List Nat → List Nat)
    (u : UserOperation) (beneficiary : Nat)
    (hk : ∀ b, (keccak b).length = 32) (hwf : u.WF)
    (hben : beneficiary < 2 ^ 160)
    (hic : u.initCode ≠ []) (hcd : u.callData ≠ [])
    (hsig : u.signature.length = 65) :
    ∃ payload, createHandleOpsCalldata keccak [u] beneficiary = .ok payload ∧
      payload.length = 4 + 32 * 2 + 32 + 32 * 1 + 32 * 11 +
        ((32 + 32 * ((u.initCode.length + 31) / 32)) +
         (32 + 32 * ((u.callData.length + 31) / 32)) +
         (32 + 32 * ((u.paymasterAndData.length + 31) / 32)) +
         (32 + 32 * ((u.signature.length + 31) / 32))) := by
  obtain ⟨h1, h2, h3, h4, h5, h6, h7⟩ := hwf
  norm_num at h1 h2 h3 h4 h5 h6 h7 hben
  simp [createHandleOpsCalldata, encode_function_call, encode_tuple,
    handleOpsArgTypes, userOpAbiTypes, opsToItems, userOpToFields,
    encode_fields, encode_value_tail, encode_array_elems, isDynamicType,
    anyDynamicType, encode_static, TypeList.length, ItemList.length,
    hk, h1, h2, h3, h4, h5, h6, h7, hben]
  simp [List.length_append, beBytes_length, encode_dynamic_bytes_length, hsig]
  omega

/-- Witness for C5 (amended) at `c5op`, beneficiary 0 and the constant hash
model: 772 = 4 + 64 + 32 + 32 + 352 + (64 + 64 + 32 + 128). -/
theorem createHandleOpsCalldata_one_op_length_witness :
    ∃ payload, createHandleOpsCalldata keccakConst [c5op] 0 = .ok payload ∧
      payload.length = 4 + 32 * 2 + 32 + 32 * 1 + 32 * 11 +
        ((32 + 32 * ((c5op.initCode.length + 31) / 32)) +
         (32 + 32 * ((c5op.callData.length + 31) / 32)) +
         (32 + 32 * ((c5op.paymasterAndData.length + 31) / 32)) +
         (32 + 32 * ((c5op.signature.length + 31) / 32))) :=
  createHandleOpsCalldata_one_op_length keccakConst c5op 0 (fun _ => rfl)
    (by decide) (by decide) (by decide) (by decide) rfl
